import Mathlib

/-!
# The JNI binding `Java_com_lambdaworks_crypto_SCrypt_scryptN`

A shallow embedding of the two variants of the binding
(`native/src/scrypt_jni.c` and `src/windows/c/scrypt_jni.c`).

The binding only talks to its surroundings: the JNI environment, the C
allocator and `crypto_scrypt`.  Their behaviour is an explicit parameter
(`Env`), and a run of the binding yields the returned array together with the
sequence of calls it made (`Event`), in program order.
-/

namespace SCrypt

/-! ## Data model and the two source functions -/

/-- A byte, as stored in a `jbyte` / `uint8_t` cell. -/
abbrev Byte := Nat

/-- The two Java arrays handed to the binding. -/
inductive ArrayId where
  | passwd
  | salt
  deriving DecidableEq

/-- Release mode given to `ReleaseByteArrayElements`. -/
inductive ReleaseMode where
  | commit
  | abort
  deriving DecidableEq

/-- The `errno` value `EINVAL` tested by the `switch` (values of `<errno.h>`). -/
def EINVAL : Int := 22

/-- The `errno` value `EFBIG`. -/
def EFBIG : Int := 27

/-- The `errno` value `ENOMEM`. -/
def ENOMEM : Int := 12

/-- The constant `sizeof(uint8_t)`. -/
def sizeof_uint8_t : Nat := 1

/-- Conversion of a `jint` expression to `size_t` on a platform whose `size_t`
has `w` bits: the value modulo `2 ^ w`. -/
def toSizeT (w : Nat) (x : Int) : Nat := (x % (2 : Int) ^ w).toNat

/-- Multiplication in `size_t` (modulo `2 ^ w`). -/
def sizeMul (w : Nat) (a b : Nat) : Nat := (a * b) % 2 ^ w

/-- What `crypto_scrypt` does in one call: its return code, the `errno` it
leaves, and the byte found at each offset of the output buffer afterwards. -/
structure CryptoResult where
  rc : Int
  errno : Int
  out : Nat → Byte

/-- Behaviour of everything the binding calls.
* `getPasswdElements`, `getSaltElements`: whether `GetByteArrayElements`
  returns a non-null pointer for that array;
* `mallocOk size`: whether `malloc(size)` returns a non-null pointer;
* `heap i`: the byte found at offset `i` of a freshly allocated block;
* `crypto_scrypt P Plen S Slen N r p buflen`: the core (not part of the two
  binding files), with the arguments in call order;
* `newByteArrayOk len`: whether `NewByteArray` finds memory for `len` bytes;
* `findClassOk`: whether `FindClass` returns a non-null class;
* `findClassErrno e`: the value of `errno` when `FindClass` returns, `e` being
  its value when `FindClass` was called;
* `throwNewOk`: whether `ThrowNew`, given a non-null class, raises the
  exception. -/
structure Env where
  getPasswdElements : Bool
  getSaltElements : Bool
  mallocOk : Nat → Bool
  heap : Nat → Byte
  crypto_scrypt : List Byte → Int → List Byte → Int → Int → Int → Int → Nat → CryptoResult
  newByteArrayOk : Int → Bool
  findClassOk : Bool
  findClassErrno : Int → Int
  throwNewOk : Bool

/-- One call made by the binding, with its arguments. `Free` and
`SetByteArrayRegion` also record the contents of the block they are given.
`CryptoScrypt` carries the values of the argument expressions in call order,
the pointer `buf` left out and the last argument `dkLen` as the `size_t` the
core receives. `ThrowNew` carries the class it is given (`none` is `NULL`),
the message, and whether the exception was raised. -/
inductive Event where
  | GetArrayLength (a : ArrayId)
  | GetByteArrayElements (a : ArrayId)
  | Malloc (size : Nat)
  | CryptoScrypt (P : List Byte) (Plen : Int) (S : List Byte) (Slen : Int)
      (N r p : Int) (buflen : Nat)
  | FindClass (name : String)
  | ThrowNew (cls : Option String) (msg : String) (raised : Bool)
  | NewByteArray (len : Int)
  | SetByteArrayRegion (start len : Int) (src : List Byte)
  | ReleaseByteArrayElements (a : ArrayId) (mode : ReleaseMode)
  | Free (contents : List Byte)
  deriving DecidableEq

/-- Result of one run: the returned `jbyteArray` (`none` is `NULL`) and the
calls made, oldest first. -/
structure Outcome where
  ret : Option (List Byte)
  trace : List Event
  deriving DecidableEq

/-- The call `GetArrayLength`: the number of elements of a Java array. -/
def getArrayLength (a : List Byte) : Int := (a.length : Int)

/-- The call `GetByteArrayElements(env, a, NULL)`: a pointer to the elements
of `a`, or `NULL`. -/
def getByteArrayElements (ok : Bool) (a : List Byte) : Option (List Byte) :=
  if ok then some a else none

/-- The call `malloc(size)`: a block of `size` bytes with the contents the
heap happens to hold, or `NULL`. -/
def malloc (env : Env) (size : Nat) : Option (List Byte) :=
  if env.mallocOk size then some ((List.range size).map env.heap) else none

/-- Contents of a `buflen`-byte buffer after `crypto_scrypt` has run on it. -/
def bufferAfter (res : CryptoResult) (buflen : Nat) : List Byte :=
  (List.range buflen).map res.out

/-- The call `NewByteArray(env, len)`: a fresh zero-filled array of `len`
bytes, or `NULL`; a negative length never yields an array. -/
def newByteArray (env : Env) (len : Int) : Option (List Byte) :=
  if len < 0 then none
  else if env.newByteArrayOk len then some (List.replicate len.toNat 0) else none

/-- The call `SetByteArrayRegion(env, dst, start, len, src)`: cells
`start .. start+len-1` of `dst` receive the first `len` bytes of `src`. -/
def setByteArrayRegion (dst : List Byte) (start len : Int) (src : List Byte) : List Byte :=
  dst.take start.toNat ++ src.take len.toNat ++ dst.drop (start.toNat + len.toNat)

/-- Name of the exception class looked up by both variants. -/
def exceptionClass : String := "java/lang/IllegalArgumentException"

/-- The call `FindClass(env, name)`: the class of that name, or `NULL`. -/
def findClass (env : Env) (name : String) : Option String :=
  if env.findClassOk then some name else none

/-- The call `ThrowNew(env, cls, msg)`: whether an exception of class `cls` is
raised. Nothing is raised for a `NULL` class. -/
def throwNew (env : Env) (cls : Option String) : Bool :=
  match cls with
  | some _ => env.throwNewOk
  | none => false

/-- The `switch (errno)` of `native/src/scrypt_jni.c`. -/
def errnoMessage_native (errno : Int) : String :=
  if errno = EINVAL then "N must be > 0 and a power of 2"
  else if errno = EFBIG then "Insufficient memory available"
  else if errno = ENOMEM then "Insufficient memory available"
  else "Memory allocation failed"

/-- The `switch (errno)` of `src/windows/c/scrypt_jni.c`. -/
def errnoMessage_windows (errno : Int) : String :=
  if errno = EINVAL then "N must be a power of 2 greater than 1"
  else if errno = EFBIG then "Insufficient memory available"
  else if errno = ENOMEM then "Insufficient memory available"
  else "Memory allocation failed"

/-- The `cleanup:` label of `native/src/scrypt_jni.c`: release what is
non-null, then `return DK`. -/
def cleanup_native (trace : List Event) (P S buf : Option (List Byte))
    (DK : Option (List Byte)) : Outcome :=
  let t1 := match P with
    | some _ => trace ++ [Event.ReleaseByteArrayElements ArrayId.passwd ReleaseMode.abort]
    | none => trace
  let t2 := match S with
    | some _ => t1 ++ [Event.ReleaseByteArrayElements ArrayId.salt ReleaseMode.abort]
    | none => t1
  let t3 := match buf with
    | some b => t2 ++ [Event.Free b]
    | none => t2
  { ret := DK, trace := t3 }

/-- The function `Java_com_lambdaworks_crypto_SCrypt_scryptN` of
`native/src/scrypt_jni.c`. The local `errno` stands for the C variable: set
by `crypto_scrypt`, possibly changed by `FindClass`, then read by the
`switch`. -/
def scryptN_native (w : Nat) (env : Env) (passwd salt : List Byte)
    (N r p dkLen : Int) : Outcome :=
  let Plen := getArrayLength passwd
  let Slen := getArrayLength salt
  let P := getByteArrayElements env.getPasswdElements passwd
  let S := getByteArrayElements env.getSaltElements salt
  let size := sizeMul w sizeof_uint8_t (toSizeT w dkLen)
  let buf := malloc env size
  let DK : Option (List Byte) := none
  let t0 := [Event.GetArrayLength ArrayId.passwd, Event.GetArrayLength ArrayId.salt,
    Event.GetByteArrayElements ArrayId.passwd, Event.GetByteArrayElements ArrayId.salt,
    Event.Malloc size]
  match P, S, buf with
  | some Pb, some Sb, some _ =>
    let buflen := toSizeT w dkLen
    let res := env.crypto_scrypt Pb Plen Sb Slen N r p buflen
    let rc := res.rc
    let b := bufferAfter res buflen
    let t1 := t0 ++ [Event.CryptoScrypt Pb Plen Sb Slen N r p buflen]
    let errno := res.errno
    if rc ≠ 0 then
      let e := findClass env exceptionClass
      let errno := env.findClassErrno errno
      let msg := errnoMessage_native errno
      let t2 := t1 ++ [Event.FindClass exceptionClass, Event.ThrowNew e msg (throwNew env e)]
      cleanup_native t2 P S (some b) DK
    else
      let DK := newByteArray env dkLen
      let t2 := t1 ++ [Event.NewByteArray dkLen]
      match DK with
      | none => cleanup_native t2 P S (some b) none
      | some arr =>
        let arr2 := setByteArrayRegion arr 0 dkLen b
        let t3 := t2 ++ [Event.SetByteArrayRegion 0 dkLen b]
        cleanup_native t3 P S (some b) (some arr2)
  | _, _, _ => cleanup_native t0 P S buf DK

/-- The `cleanup:` label of `src/windows/c/scrypt_jni.c`. -/
def cleanup_windows (trace : List Event) (P S buf : Option (List Byte))
    (DK : Option (List Byte)) : Outcome :=
  let t1 := match P with
    | some _ => trace ++ [Event.ReleaseByteArrayElements ArrayId.passwd ReleaseMode.abort]
    | none => trace
  let t2 := match S with
    | some _ => t1 ++ [Event.ReleaseByteArrayElements ArrayId.salt ReleaseMode.abort]
    | none => t1
  let t3 := match buf with
    | some b => t2 ++ [Event.Free b]
    | none => t2
  { ret := DK, trace := t3 }

/-- The function `Java_com_lambdaworks_crypto_SCrypt_scryptN` of
`src/windows/c/scrypt_jni.c`. The local `errno` stands for the C variable, as
in the native variant. -/
def scryptN_windows (w : Nat) (env : Env) (passwd salt : List Byte)
    (N r p dkLen : Int) : Outcome :=
  let Plen := getArrayLength passwd
  let Slen := getArrayLength salt
  let P := getByteArrayElements env.getPasswdElements passwd
  let S := getByteArrayElements env.getSaltElements salt
  let size := sizeMul w sizeof_uint8_t (toSizeT w dkLen)
  let buf := malloc env size
  let DK : Option (List Byte) := none
  let t0 := [Event.GetArrayLength ArrayId.passwd, Event.GetArrayLength ArrayId.salt,
    Event.GetByteArrayElements ArrayId.passwd, Event.GetByteArrayElements ArrayId.salt,
    Event.Malloc size]
  match P, S, buf with
  | some Pb, some Sb, some _ =>
    let buflen := toSizeT w dkLen
    let res := env.crypto_scrypt Pb Plen Sb Slen N r p buflen
    let b := bufferAfter res buflen
    let t1 := t0 ++ [Event.CryptoScrypt Pb Plen Sb Slen N r p buflen]
    let errno := res.errno
    if res.rc ≠ 0 then
      let e := findClass env exceptionClass
      let errno := env.findClassErrno errno
      let msg := errnoMessage_windows errno
      let t2 := t1 ++ [Event.FindClass exceptionClass, Event.ThrowNew e msg (throwNew env e)]
      cleanup_windows t2 P S (some b) DK
    else
      let DK := newByteArray env dkLen
      let t2 := t1 ++ [Event.NewByteArray dkLen]
      match DK with
      | none => cleanup_windows t2 P S (some b) none
      | some arr =>
        let arr2 := setByteArrayRegion arr 0 dkLen b
        let t3 := t2 ++ [Event.SetByteArrayRegion 0 dkLen b]
        cleanup_windows t3 P S (some b) (some arr2)
  | _, _, _ => cleanup_windows t0 P S buf DK

/-- The two source files. -/
inductive Variant where
  | native
  | windows
  deriving DecidableEq

/-- The binding of the chosen source file. -/
def scryptN (v : Variant) (w : Nat) (env : Env) (passwd salt : List Byte)
    (N r p dkLen : Int) : Outcome :=
  match v with
  | Variant.native => scryptN_native w env passwd salt N r p dkLen
  | Variant.windows => scryptN_windows w env passwd salt N r p dkLen

/-- The message each source file picks for `errno`. -/
def errnoMessage (v : Variant) (errno : Int) : String :=
  match v with
  | Variant.native => errnoMessage_native errno
  | Variant.windows => errnoMessage_windows errno

/-- The invalid-N message of each source file (the `case EINVAL` string). -/
def invalidNMessage (v : Variant) : String :=
  match v with
  | Variant.native => "N must be > 0 and a power of 2"
  | Variant.windows => "N must be a power of 2 greater than 1"

/-- The exceptions raised by the binding: class and message of every
`ThrowNew` of a trace that raised one, in order. -/
def thrown (t : List Event) : List (String × String) :=
  t.filterMap fun e =>
    match e with
    | Event.ThrowNew (some cls) msg true => some (cls, msg)
    | _ => none

/-- The calls of `ThrowNew` in a trace. -/
def isThrowNew : Event → Bool
  | Event.ThrowNew _ _ _ => true
  | _ => false

/-- The five calls every run starts with (lines 14 to 18 of the native file). -/
def acquireCalls (w : Nat) (dkLen : Int) : List Event :=
  [Event.GetArrayLength ArrayId.passwd, Event.GetArrayLength ArrayId.salt,
    Event.GetByteArrayElements ArrayId.passwd, Event.GetByteArrayElements ArrayId.salt,
    Event.Malloc (sizeMul w sizeof_uint8_t (toSizeT w dkLen))]

/-- The two releases of a run in which both arrays were acquired. -/
def releaseCalls : List Event :=
  [Event.ReleaseByteArrayElements ArrayId.passwd ReleaseMode.abort,
    Event.ReleaseByteArrayElements ArrayId.salt ReleaseMode.abort]

/-- All three buffers were obtained: the test of line 22 falls through. -/
def Acquired (w : Nat) (env : Env) (dkLen : Int) : Prop :=
  env.getPasswdElements = true ∧ env.getSaltElements = true ∧
    env.mallocOk (sizeMul w sizeof_uint8_t (toSizeT w dkLen)) = true

instance (w : Nat) (env : Env) (dkLen : Int) : Decidable (Acquired w env dkLen) := by
  unfold Acquired; infer_instance

/-- The result of the one `crypto_scrypt` call a run can make. -/
def coreResult (w : Nat) (env : Env) (passwd salt : List Byte) (N r p dkLen : Int) :
    CryptoResult :=
  env.crypto_scrypt passwd (getArrayLength passwd) salt (getArrayLength salt) N r p
    (toSizeT w dkLen)

/-- The `crypto_scrypt` call of a run, as an event. -/
def coreCall (w : Nat) (passwd salt : List Byte) (N r p dkLen : Int) : Event :=
  Event.CryptoScrypt passwd (getArrayLength passwd) salt (getArrayLength salt) N r p
    (toSizeT w dkLen)

/-- The value of `errno` the `switch` reads: what `FindClass` left of the value
`crypto_scrypt` set. -/
def switchErrno (w : Nat) (env : Env) (passwd salt : List Byte) (N r p dkLen : Int) : Int :=
  env.findClassErrno (coreResult w env passwd salt N r p dkLen).errno

/-- The `ThrowNew` call of a run in which `crypto_scrypt` failed. -/
def throwCall (v : Variant) (w : Nat) (env : Env) (passwd salt : List Byte)
    (N r p dkLen : Int) : Event :=
  Event.ThrowNew (findClass env exceptionClass)
    (errnoMessage v (switchErrno w env passwd salt N r p dkLen))
    (throwNew env (findClass env exceptionClass))

/-- The environment calls after `crypto_scrypt` behave as expected:
`FindClass` returns the class and leaves `errno` as it found it for the value
`e`, and `ThrowNew` raises the exception. -/
def ThrowsCleanly (env : Env) (e : Int) : Prop :=
  env.findClassOk = true ∧ env.findClassErrno e = e ∧ env.throwNewOk = true

instance (env : Env) (e : Int) : Decidable (ThrowsCleanly env e) := by
  unfold ThrowsCleanly; infer_instance

/-- The output buffer once `crypto_scrypt` has returned. -/
def keyBuffer (w : Nat) (env : Env) (passwd salt : List Byte) (N r p dkLen : Int) :
    List Byte :=
  bufferAfter (coreResult w env passwd salt N r p dkLen) (toSizeT w dkLen)

/-- The releases of a run that stops at the test of line 22. -/
def earlyReleases (w : Nat) (env : Env) (dkLen : Int) : List Event :=
  (if env.getPasswdElements then
      [Event.ReleaseByteArrayElements ArrayId.passwd ReleaseMode.abort] else []) ++
  (if env.getSaltElements then
      [Event.ReleaseByteArrayElements ArrayId.salt ReleaseMode.abort] else []) ++
  (if env.mallocOk (sizeMul w sizeof_uint8_t (toSizeT w dkLen)) then
      [Event.Free ((List.range (sizeMul w sizeof_uint8_t (toSizeT w dkLen))).map env.heap)]
    else [])

/-- A `jint`: a 32-bit signed integer. -/
def IsJInt (x : Int) : Prop := -(2 : Int) ^ 31 ≤ x ∧ x < (2 : Int) ^ 31

instance (x : Int) : Decidable (IsJInt x) := by
  unfold IsJInt; infer_instance

/-- A core used in the examples: it accepts `N = 16` only, writing the bytes
`1, 2, 3, ...`, and rejects every other `N` with `errno = EINVAL`, after which
the buffer reads 170 at every offset. -/
def demoCore (_P : List Byte) (_Plen : Int) (_S : List Byte) (_Slen : Int)
    (N _r _p : Int) (_buflen : Nat) : CryptoResult :=
  if N = 16 then { rc := 0, errno := 0, out := fun i => i + 1 }
  else { rc := -1, errno := EINVAL, out := fun _ => 170 }

/-- An environment in which every acquisition succeeds, as long as the block
asked of `malloc` is below 4 GiB, `FindClass` returns the class and leaves
`errno` alone, and `ThrowNew` raises the exception. -/
def demoEnv : Env :=
  { getPasswdElements := true
    getSaltElements := true
    mallocOk := fun size => decide (size < 2 ^ 32)
    heap := fun _ => 170
    crypto_scrypt := demoCore
    newByteArrayOk := fun _ => true
    findClassOk := true
    findClassErrno := fun e => e
    throwNewOk := true }

/-- Calls that create or fill the result array. -/
def touchesArray : Event → Bool
  | Event.NewByteArray _ => true
  | Event.SetByteArrayRegion _ _ _ => true
  | _ => false

/-- The release of the elements of array `a`. -/
def isRelease (a : ArrayId) : Event → Bool
  | Event.ReleaseByteArrayElements b _ => decide (a = b)
  | _ => false

/-- A call of `free`. -/
def isFree : Event → Bool
  | Event.Free _ => true
  | _ => false

/-- The value `N` is a power of two. -/
def IsPowerOfTwo (N : Int) : Prop := ∃ k : Nat, N = (2 : Int) ^ k

/-- The values of `N` the claim about invalid `N` speaks of: not a power of
two, or 0, or 1. -/
def BadN (N : Int) : Prop := ¬ IsPowerOfTwo N ∨ N = 0 ∨ N = 1

/-- A core that rejects every such `N` with a non-zero return and
`errno = EINVAL`. -/
def RejectsBadN
    (core : List Byte → Int → List Byte → Int → Int → Int → Int → Nat → CryptoResult) :
    Prop :=
  ∀ (P : List Byte) (Plen : Int) (S : List Byte) (Slen : Int) (N r p : Int) (buflen : Nat),
    BadN N → (core P Plen S Slen N r p buflen).rc ≠ 0 ∧
      (core P Plen S Slen N r p buflen).errno = EINVAL

/-- The environment `demoEnv` with an allocator that has no memory left. -/
def noMemoryEnv : Env :=
  { demoEnv with mallocOk := fun _ => false }

/-- The environment `demoEnv` with a `FindClass` that returns the class and
leaves `errno = 2` (`ENOENT`) behind. -/
def errnoChangingEnv : Env :=
  { demoEnv with findClassErrno := fun _ => 2 }

/-- A second environment: the same core as `demoEnv`, another heap, and a
smaller allocator limit. -/
def otherEnv : Env :=
  { demoEnv with mallocOk := fun size => decide (size < 2 ^ 20), heap := fun i => 255 - i % 256 }

/-- The environment calls of two invocations have the same outcomes: the two
`GetByteArrayElements`, `malloc` of the buffer, `NewByteArray(dkLen)`,
`FindClass` (result and the `errno` it leaves when entered with `e`) and
`ThrowNew`. -/
def SameCallOutcomes (w : Nat) (env1 env2 : Env) (dkLen : Int) (e : Int) : Prop :=
  env1.getPasswdElements = env2.getPasswdElements ∧
  env1.getSaltElements = env2.getSaltElements ∧
  env1.mallocOk (sizeMul w sizeof_uint8_t (toSizeT w dkLen)) =
    env2.mallocOk (sizeMul w sizeof_uint8_t (toSizeT w dkLen)) ∧
  env1.newByteArrayOk dkLen = env2.newByteArrayOk dkLen ∧
  env1.findClassOk = env2.findClassOk ∧
  env1.findClassErrno e = env2.findClassErrno e ∧
  env1.throwNewOk = env2.throwNewOk

instance (w : Nat) (env1 env2 : Env) (dkLen : Int) (e : Int) :
    Decidable (SameCallOutcomes w env1 env2 dkLen e) := by
  unfold SameCallOutcomes; infer_instance

/-- Calls that obtain memory before the core runs: `GetByteArrayElements` and
`malloc`. -/
def isAcquisition : Event → Bool
  | Event.GetByteArrayElements _ => true
  | Event.Malloc _ => true
  | _ => false

/-- The size asked of `malloc`, for a `Malloc` event. -/
def mallocSize : Event → Option Nat
  | Event.Malloc size => some size
  | _ => none

/-- Rewrites the message of a `ThrowNew` from the text of the native file's
`case EINVAL` to the text of the windows file's; every other call is left
as it is. -/
def toWindowsText : Event → Event
  | Event.ThrowNew cls msg raised =>
    Event.ThrowNew cls
      (if msg = "N must be > 0 and a power of 2" then "N must be a power of 2 greater than 1"
        else msg) raised
  | e => e

/-! ## Properties -/

theorem run_failed_core (v : Variant) (w : Nat) (env : Env) (passwd salt : List Byte)
    (N r p dkLen : Int) (hacq : Acquired w env dkLen)
    (hrc : (coreResult w env passwd salt N r p dkLen).rc ≠ 0) :
    scryptN v w env passwd salt N r p dkLen =
      { ret := none,
        trace := acquireCalls w dkLen ++ [coreCall w passwd salt N r p dkLen] ++
          [Event.FindClass exceptionClass, throwCall v w env passwd salt N r p dkLen] ++
          releaseCalls ++ [Event.Free (keyBuffer w env passwd salt N r p dkLen)] } := by
  obtain ⟨hP, hS, hB⟩ := hacq
  unfold coreResult at hrc
  cases v <;>
    simp [scryptN, scryptN_native, scryptN_windows, cleanup_native, cleanup_windows,
      getByteArrayElements, malloc, hP, hS, hB, hrc, acquireCalls, releaseCalls, coreCall,
      keyBuffer, coreResult, errnoMessage, throwCall, switchErrno]

theorem run_array_failed (v : Variant) (w : Nat) (env : Env) (passwd salt : List Byte)
    (N r p dkLen : Int) (hacq : Acquired w env dkLen)
    (hrc : (coreResult w env passwd salt N r p dkLen).rc = 0)
    (hDK : newByteArray env dkLen = none) :
    scryptN v w env passwd salt N r p dkLen =
      { ret := none,
        trace := acquireCalls w dkLen ++ [coreCall w passwd salt N r p dkLen] ++
          [Event.NewByteArray dkLen] ++
          releaseCalls ++ [Event.Free (keyBuffer w env passwd salt N r p dkLen)] } := by
  obtain ⟨hP, hS, hB⟩ := hacq
  unfold coreResult at hrc
  cases v <;>
    simp [scryptN, scryptN_native, scryptN_windows, cleanup_native, cleanup_windows,
      getByteArrayElements, malloc, hP, hS, hB, hrc, hDK, acquireCalls, releaseCalls,
      coreCall, keyBuffer, coreResult]

theorem run_success (v : Variant) (w : Nat) (env : Env) (passwd salt : List Byte)
    (N r p dkLen : Int) (arr : List Byte) (hacq : Acquired w env dkLen)
    (hrc : (coreResult w env passwd salt N r p dkLen).rc = 0)
    (hDK : newByteArray env dkLen = some arr) :
    scryptN v w env passwd salt N r p dkLen =
      { ret := some (setByteArrayRegion arr 0 dkLen (keyBuffer w env passwd salt N r p dkLen)),
        trace := acquireCalls w dkLen ++ [coreCall w passwd salt N r p dkLen] ++
          [Event.NewByteArray dkLen,
            Event.SetByteArrayRegion 0 dkLen (keyBuffer w env passwd salt N r p dkLen)] ++
          releaseCalls ++ [Event.Free (keyBuffer w env passwd salt N r p dkLen)] } := by
  obtain ⟨hP, hS, hB⟩ := hacq
  unfold coreResult at hrc
  cases v <;>
    simp [scryptN, scryptN_native, scryptN_windows, cleanup_native, cleanup_windows,
      getByteArrayElements, malloc, hP, hS, hB, hrc, hDK, acquireCalls, releaseCalls,
      coreCall, keyBuffer, coreResult]

theorem run_not_acquired (v : Variant) (w : Nat) (env : Env) (passwd salt : List Byte)
    (N r p dkLen : Int) (hacq : ¬ Acquired w env dkLen) :
    scryptN v w env passwd salt N r p dkLen =
      { ret := none, trace := acquireCalls w dkLen ++ earlyReleases w env dkLen } := by
  unfold Acquired at hacq
  cases hP : env.getPasswdElements <;> cases hS : env.getSaltElements <;>
    cases hB : env.mallocOk (sizeMul w sizeof_uint8_t (toSizeT w dkLen)) <;>
    cases v <;>
    simp_all [scryptN, scryptN_native, scryptN_windows, cleanup_native, cleanup_windows,
      getByteArrayElements, malloc, acquireCalls, earlyReleases]

theorem toSizeT_lt (w : Nat) (x : Int) : toSizeT w x < 2 ^ w := by
  unfold toSizeT
  have hpos : (0 : Int) < (2 : Int) ^ w := by positivity
  have h1 := Int.emod_lt_of_pos x hpos
  have h0 := Int.emod_nonneg x (ne_of_gt hpos)
  have : ((x % (2 : Int) ^ w).toNat : Int) < ((2 ^ w : Nat) : Int) := by
    rw [Int.toNat_of_nonneg h0]; push_cast; exact h1
  exact_mod_cast this

theorem malloc_size_eq (w : Nat) (x : Int) :
    sizeMul w sizeof_uint8_t (toSizeT w x) = toSizeT w x := by
  unfold sizeMul sizeof_uint8_t
  rw [one_mul]
  exact Nat.mod_eq_of_lt (toSizeT_lt w x)

theorem toSizeT_of_jint (w : Nat) (x : Int) (hw : 32 ≤ w) (h0 : 0 ≤ x) (hx : IsJInt x) :
    toSizeT w x = x.toNat := by
  unfold toSizeT
  have h31 : (2 : Int) ^ 31 < (2 : Int) ^ w :=
    pow_lt_pow_right₀ (by norm_num) (by omega)
  rw [Int.emod_eq_of_lt h0 (lt_trans hx.2 h31)]

theorem newByteArray_some (env : Env) (len : Int) (arr : List Byte)
    (h : newByteArray env len = some arr) : 0 ≤ len ∧ arr = List.replicate len.toNat 0 := by
  unfold newByteArray at h
  split at h
  · cases h
  · split at h
    · simp at h; exact ⟨by omega, h.symm⟩
    · cases h

theorem keyBuffer_length (w : Nat) (env : Env) (passwd salt : List Byte)
    (N r p dkLen : Int) :
    (keyBuffer w env passwd salt N r p dkLen).length = toSizeT w dkLen := by
  simp [keyBuffer, bufferAfter]

theorem copy_whole (n : Nat) (buf : List Byte) (h : buf.length = n) :
    setByteArrayRegion (List.replicate n 0) 0 (n : Int) buf = buf := by
  unfold setByteArrayRegion
  simp [← h]

/-- C1. When the password and salt elements and the output buffer are
acquired, `crypto_scrypt` returns 0 and `NewByteArray` succeeds, the call
returns an array of length exactly `dkLen` holding exactly the bytes that
`crypto_scrypt` left in the `dkLen`-byte output buffer, and `crypto_scrypt` was
called once with (password bytes, password length, salt bytes, salt length,
N, r, p, buffer, dkLen) in that order, N, r, p and dkLen being the caller's. -/
theorem scryptN_success_returns_key (v : Variant) (w : Nat) (env : Env)
    (passwd salt : List Byte) (N r p dkLen : Int)
    (hw : 32 ≤ w) (hjint : IsJInt dkLen)
    (hacq : Acquired w env dkLen)
    (hrc : (env.crypto_scrypt passwd (passwd.length : Int) salt (salt.length : Int) N r p
      (toSizeT w dkLen)).rc = 0)
    (hDK : (newByteArray env dkLen).isSome = true) :
    ∃ arr : List Byte,
      (scryptN v w env passwd salt N r p dkLen).ret = some arr ∧
      (arr.length : Int) = dkLen ∧
      arr = (List.range dkLen.toNat).map
        (env.crypto_scrypt passwd (passwd.length : Int) salt (salt.length : Int) N r p
          (toSizeT w dkLen)).out ∧
      ((toSizeT w dkLen : Nat) : Int) = dkLen ∧
      (scryptN v w env passwd salt N r p dkLen).trace.filter
          (fun e => match e with
            | Event.CryptoScrypt _ _ _ _ _ _ _ _ => true
            | _ => false) =
        [Event.CryptoScrypt passwd (passwd.length : Int) salt (salt.length : Int) N r p
          (toSizeT w dkLen)] := by
  obtain ⟨arr0, harr0⟩ := Option.isSome_iff_exists.mp hDK
  obtain ⟨h0, hz⟩ := newByteArray_some env dkLen arr0 harr0
  have hsz := toSizeT_of_jint w dkLen hw h0 hjint
  have hrun := run_success v w env passwd salt N r p dkLen arr0 hacq hrc harr0
  have hlen := keyBuffer_length w env passwd salt N r p dkLen
  have hcopy : setByteArrayRegion arr0 0 dkLen (keyBuffer w env passwd salt N r p dkLen) =
      keyBuffer w env passwd salt N r p dkLen := by
    have h := copy_whole dkLen.toNat (keyBuffer w env passwd salt N r p dkLen)
      (by rw [hlen, hsz])
    rw [Int.toNat_of_nonneg h0] at h
    rw [hz]; exact h
  refine ⟨keyBuffer w env passwd salt N r p dkLen, ?_, ?_, ?_, ?_, ?_⟩
  · rw [hrun, hcopy]
  · rw [hlen, hsz, Int.toNat_of_nonneg h0]
  · simp [keyBuffer, bufferAfter, coreResult, getArrayLength, hsz]
  · rw [hsz, Int.toNat_of_nonneg h0]
  · rw [hrun]
    simp [acquireCalls, releaseCalls, coreCall, getArrayLength, List.filter]

/-- C1 at a concrete call: password `[112]`, salt `[115]`, N = 16, r = p = 1,
dkLen = 4 on a 64-bit platform. -/
theorem scryptN_success_returns_key_witness :
    (scryptN Variant.native 64 demoEnv [112] [115] 16 1 1 4).ret = some [1, 2, 3, 4] ∧
    ∃ arr : List Byte,
      (scryptN Variant.native 64 demoEnv [112] [115] 16 1 1 4).ret = some arr ∧
      (arr.length : Int) = 4 ∧
      arr = (List.range (4 : Int).toNat).map
        (demoEnv.crypto_scrypt [112] (([112] : List Byte).length : Int) [115]
          (([115] : List Byte).length : Int) 16 1 1 (toSizeT 64 4)).out ∧
      ((toSizeT 64 4 : Nat) : Int) = 4 ∧
      (scryptN Variant.native 64 demoEnv [112] [115] 16 1 1 4).trace.filter
          (fun e => match e with
            | Event.CryptoScrypt _ _ _ _ _ _ _ _ => true
            | _ => false) =
        [Event.CryptoScrypt [112] (([112] : List Byte).length : Int) [115]
          (([115] : List Byte).length : Int) 16 1 1 (toSizeT 64 4)] :=
  ⟨by decide,
    scryptN_success_returns_key Variant.native 64 demoEnv [112] [115] 16 1 1 4
      (by decide) (by decide) (by decide) (by decide) (by decide)⟩

theorem run_cases (v : Variant) (w : Nat) (env : Env) (passwd salt : List Byte)
    (N r p dkLen : Int) :
    (¬ Acquired w env dkLen ∧
      scryptN v w env passwd salt N r p dkLen =
        { ret := none, trace := acquireCalls w dkLen ++ earlyReleases w env dkLen }) ∨
    (Acquired w env dkLen ∧ (coreResult w env passwd salt N r p dkLen).rc ≠ 0 ∧
      scryptN v w env passwd salt N r p dkLen =
        { ret := none,
          trace := acquireCalls w dkLen ++ [coreCall w passwd salt N r p dkLen] ++
            [Event.FindClass exceptionClass, throwCall v w env passwd salt N r p dkLen] ++
            releaseCalls ++ [Event.Free (keyBuffer w env passwd salt N r p dkLen)] }) ∨
    (Acquired w env dkLen ∧ (coreResult w env passwd salt N r p dkLen).rc = 0 ∧
      newByteArray env dkLen = none ∧
      scryptN v w env passwd salt N r p dkLen =
        { ret := none,
          trace := acquireCalls w dkLen ++ [coreCall w passwd salt N r p dkLen] ++
            [Event.NewByteArray dkLen] ++
            releaseCalls ++ [Event.Free (keyBuffer w env passwd salt N r p dkLen)] }) ∨
    (∃ arr, Acquired w env dkLen ∧ (coreResult w env passwd salt N r p dkLen).rc = 0 ∧
      newByteArray env dkLen = some arr ∧
      scryptN v w env passwd salt N r p dkLen =
        { ret := some (setByteArrayRegion arr 0 dkLen
            (keyBuffer w env passwd salt N r p dkLen)),
          trace := acquireCalls w dkLen ++ [coreCall w passwd salt N r p dkLen] ++
            [Event.NewByteArray dkLen,
              Event.SetByteArrayRegion 0 dkLen (keyBuffer w env passwd salt N r p dkLen)] ++
            releaseCalls ++ [Event.Free (keyBuffer w env passwd salt N r p dkLen)] }) := by
  by_cases hacq : Acquired w env dkLen
  · by_cases hrc : (coreResult w env passwd salt N r p dkLen).rc = 0
    · cases hDK : newByteArray env dkLen with
      | none =>
        exact Or.inr (Or.inr (Or.inl
          ⟨hacq, hrc, rfl, run_array_failed v w env passwd salt N r p dkLen hacq hrc hDK⟩))
      | some arr =>
        exact Or.inr (Or.inr (Or.inr
          ⟨arr, hacq, hrc, rfl, run_success v w env passwd salt N r p dkLen arr hacq hrc hDK⟩))
    · exact Or.inr (Or.inl ⟨hacq, hrc, run_failed_core v w env passwd salt N r p dkLen hacq hrc⟩)
  · exact Or.inl ⟨hacq, run_not_acquired v w env passwd salt N r p dkLen hacq⟩

theorem errnoMessage_einval (v : Variant) : errnoMessage v EINVAL = invalidNMessage v := by
  cases v <;> decide

theorem errnoMessage_nomem (v : Variant) (errno : Int) (h : errno = EFBIG ∨ errno = ENOMEM) :
    errnoMessage v errno = "Insufficient memory available" := by
  rcases h with h | h <;> subst h <;> cases v <;> decide

theorem errnoMessage_other (v : Variant) (errno : Int) (h1 : errno ≠ EINVAL)
    (h2 : errno ≠ EFBIG) (h3 : errno ≠ ENOMEM) :
    errnoMessage v errno = "Memory allocation failed" := by
  cases v <;> simp [errnoMessage, errnoMessage_native, errnoMessage_windows, h1, h2, h3]

theorem thrown_early (w : Nat) (env : Env) (dkLen : Int) :
    thrown (acquireCalls w dkLen ++ earlyReleases w env dkLen) = [] := by
  unfold earlyReleases
  cases env.getPasswdElements <;> cases env.getSaltElements <;>
    cases env.mallocOk (sizeMul w sizeof_uint8_t (toSizeT w dkLen)) <;>
    simp [thrown, acquireCalls]

theorem thrown_run (v : Variant) (w : Nat) (env : Env) (passwd salt : List Byte)
    (N r p dkLen : Int) :
    thrown (scryptN v w env passwd salt N r p dkLen).trace =
      if Acquired w env dkLen ∧ (coreResult w env passwd salt N r p dkLen).rc ≠ 0 ∧
          env.findClassOk = true ∧ env.throwNewOk = true then
        [(exceptionClass, errnoMessage v (switchErrno w env passwd salt N r p dkLen))]
      else [] := by
  rcases run_cases v w env passwd salt N r p dkLen with
    ⟨hacq, hrun⟩ | ⟨hacq, hrc, hrun⟩ | ⟨hacq, hrc, -, hrun⟩ | ⟨arr, hacq, hrc, -, hrun⟩
  · rw [hrun, if_neg (fun h => hacq h.1)]
    exact thrown_early w env dkLen
  · rw [hrun]
    cases hF : env.findClassOk <;> cases hT : env.throwNewOk <;>
      simp [thrown, acquireCalls, releaseCalls, coreCall, throwCall, findClass, throwNew,
        hF, hT, hacq, hrc]
  · rw [hrun, if_neg (fun h => h.2.1 hrc)]
    simp [thrown, acquireCalls, releaseCalls, coreCall]
  · rw [hrun, if_neg (fun h => h.2.1 hrc)]
    simp [thrown, acquireCalls, releaseCalls, coreCall]

theorem throwNew_count (v : Variant) (w : Nat) (env : Env) (passwd salt : List Byte)
    (N r p dkLen : Int) :
    (scryptN v w env passwd salt N r p dkLen).trace.countP isThrowNew =
      if Acquired w env dkLen ∧ (coreResult w env passwd salt N r p dkLen).rc ≠ 0 then 1
      else 0 := by
  rcases run_cases v w env passwd salt N r p dkLen with
    ⟨hacq, hrun⟩ | ⟨hacq, hrc, hrun⟩ | ⟨hacq, hrc, -, hrun⟩ | ⟨arr, hacq, hrc, -, hrun⟩
  · rw [hrun, if_neg (fun h => hacq h.1)]
    simp only [earlyReleases]
    cases env.getPasswdElements <;> cases env.getSaltElements <;>
      cases env.mallocOk (sizeMul w sizeof_uint8_t (toSizeT w dkLen)) <;>
      simp [acquireCalls, isThrowNew, List.countP_cons]
  · rw [hrun, if_pos ⟨hacq, hrc⟩]
    simp [acquireCalls, releaseCalls, coreCall, throwCall, isThrowNew, List.countP_cons]
  · rw [hrun, if_neg (fun h => h.2 hrc)]
    simp [acquireCalls, releaseCalls, coreCall, isThrowNew, List.countP_cons]
  · rw [hrun, if_neg (fun h => h.2 hrc)]
    simp [acquireCalls, releaseCalls, coreCall, isThrowNew, List.countP_cons]

theorem no_array_calls_on_failure (v : Variant) (w : Nat) (env : Env)
    (passwd salt : List Byte) (N r p dkLen : Int) (hacq : Acquired w env dkLen)
    (hrc : (coreResult w env passwd salt N r p dkLen).rc ≠ 0) :
    (scryptN v w env passwd salt N r p dkLen).ret = none ∧
    ∀ e ∈ (scryptN v w env passwd salt N r p dkLen).trace, touchesArray e = false := by
  rw [run_failed_core v w env passwd salt N r p dkLen hacq hrc]
  refine ⟨rfl, ?_⟩
  simp [acquireCalls, releaseCalls, coreCall, throwCall, touchesArray]

theorem ret_run (v : Variant) (w : Nat) (env : Env) (passwd salt : List Byte)
    (N r p dkLen : Int) (a : List Byte)
    (h : (scryptN v w env passwd salt N r p dkLen).ret = some a) :
    Acquired w env dkLen ∧ (coreResult w env passwd salt N r p dkLen).rc = 0 ∧
      0 ≤ dkLen ∧ env.newByteArrayOk dkLen = true ∧
      a = setByteArrayRegion (List.replicate dkLen.toNat 0) 0 dkLen
        (keyBuffer w env passwd salt N r p dkLen) := by
  rcases run_cases v w env passwd salt N r p dkLen with
    ⟨hacq, hrun⟩ | ⟨hacq, hrc, hrun⟩ | ⟨hacq, hrc, -, hrun⟩ | ⟨arr, hacq, hrc, hDK, hrun⟩
  · rw [hrun] at h; cases h
  · rw [hrun] at h; cases h
  · rw [hrun] at h; cases h
  · rw [hrun] at h
    obtain ⟨h0, hz⟩ := newByteArray_some env dkLen arr hDK
    have hok : env.newByteArrayOk dkLen = true := by
      unfold newByteArray at hDK
      rw [if_neg (by omega)] at hDK
      by_contra hc
      rw [if_neg hc] at hDK
      cases hDK
    refine ⟨hacq, hrc, h0, hok, ?_⟩
    rw [← hz]
    exact (Option.some.inj h).symm

/-- C3, the code at its failing input. With the password and salt elements
acquired and `malloc` returning `NULL`, both variants return null after releasing the two arrays,
and no exception has been thrown. -/
theorem scryptN_malloc_failure_is_silent :
    scryptN Variant.native 64 noMemoryEnv [112] [115] 16 1 1 32 =
      { ret := none,
        trace := [Event.GetArrayLength ArrayId.passwd, Event.GetArrayLength ArrayId.salt,
          Event.GetByteArrayElements ArrayId.passwd, Event.GetByteArrayElements ArrayId.salt,
          Event.Malloc 32,
          Event.ReleaseByteArrayElements ArrayId.passwd ReleaseMode.abort,
          Event.ReleaseByteArrayElements ArrayId.salt ReleaseMode.abort] } ∧
    thrown (scryptN Variant.native 64 noMemoryEnv [112] [115] 16 1 1 32).trace = [] ∧
    scryptN Variant.windows 64 noMemoryEnv [112] [115] 16 1 1 32 =
      scryptN Variant.native 64 noMemoryEnv [112] [115] 16 1 1 32 := by
  decide

theorem three_not_power_of_two : ¬ IsPowerOfTwo 3 := by
  rintro ⟨k, hk⟩
  cases k with
  | zero => simp at hk
  | succ n =>
    rw [pow_succ] at hk
    omega

theorem sixteen_not_bad : ¬ BadN 16 := by
  unfold BadN
  rintro (h | h | h)
  · exact h ⟨4, by norm_num⟩
  · omega
  · omega

theorem demoCore_rejects : RejectsBadN demoCore := by
  intro P Plen S Slen N r p buflen hN
  have hne : N ≠ 16 := by
    rintro rfl
    exact sixteen_not_bad hN
  simp [demoCore, hne]

/-- C4, counterexample. The core rejects every invalid `N` with `EINVAL` and
`N = 3` is invalid. Yet with `dkLen = -1` the request to `malloc` is for
`2 ^ 64 - 1` bytes, fails, and the call returns null without any exception:
the outcome depends on `dkLen`. And with all buffers acquired but a
`FindClass` that leaves `errno = 2`, the exception carries "Memory allocation
failed", not the invalid-N message. -/
theorem scryptN_bad_N_unreported :
    RejectsBadN demoEnv.crypto_scrypt ∧ BadN 3 ∧
    (scryptN Variant.native 64 demoEnv [112] [115] 3 1 1 (-1)).trace =
      [Event.GetArrayLength ArrayId.passwd, Event.GetArrayLength ArrayId.salt,
        Event.GetByteArrayElements ArrayId.passwd, Event.GetByteArrayElements ArrayId.salt,
        Event.Malloc 18446744073709551615,
        Event.ReleaseByteArrayElements ArrayId.passwd ReleaseMode.abort,
        Event.ReleaseByteArrayElements ArrayId.salt ReleaseMode.abort] ∧
    thrown (scryptN Variant.native 64 demoEnv [112] [115] 3 1 1 (-1)).trace = [] ∧
    thrown (scryptN Variant.windows 64 demoEnv [112] [115] 3 1 1 (-1)).trace = [] ∧
    RejectsBadN errnoChangingEnv.crypto_scrypt ∧ Acquired 64 errnoChangingEnv 8 ∧
    thrown (scryptN Variant.native 64 errnoChangingEnv [112] [115] 3 1 1 8).trace =
      [("java/lang/IllegalArgumentException", "Memory allocation failed")] ∧
    invalidNMessage Variant.native ≠ "Memory allocation failed" :=
  ⟨demoCore_rejects, Or.inl three_not_power_of_two, by decide, by decide, by decide,
    demoCore_rejects, by decide, by decide, by decide⟩

/-- C4, amended. Given a `crypto_scrypt` that rejects every `N` that is not a
power of two, or is 0 or 1, with a non-zero return and `errno = EINVAL`: for
every password, salt, r, p and dkLen, a call with such an `N` in which the
password and salt elements and the output buffer are acquired, `FindClass`
returns the class and leaves `errno = EINVAL` in place, and `ThrowNew`
succeeds, throws one `IllegalArgumentException` with the invalid-N message,
returns null, and neither creates nor fills an array. -/
theorem scryptN_bad_N_rejected (v : Variant) (w : Nat) (env : Env)
    (passwd salt : List Byte) (N r p dkLen : Int)
    (hcore : RejectsBadN env.crypto_scrypt) (hN : BadN N)
    (hacq : Acquired w env dkLen) (hclean : ThrowsCleanly env EINVAL) :
    thrown (scryptN v w env passwd salt N r p dkLen).trace =
      [("java/lang/IllegalArgumentException", invalidNMessage v)] ∧
    (scryptN v w env passwd salt N r p dkLen).ret = none ∧
    ∀ e ∈ (scryptN v w env passwd salt N r p dkLen).trace, touchesArray e = false := by
  obtain ⟨hrc, herr⟩ :=
    hcore passwd (getArrayLength passwd) salt (getArrayLength salt) N r p (toSizeT w dkLen) hN
  have hrc2 : (coreResult w env passwd salt N r p dkLen).rc ≠ 0 := hrc
  have herr2 : (coreResult w env passwd salt N r p dkLen).errno = EINVAL := herr
  obtain ⟨hF, hE, hT⟩ := hclean
  have hsw : switchErrno w env passwd salt N r p dkLen = EINVAL := by
    unfold switchErrno
    rw [herr2, hE]
  obtain ⟨hret, harr⟩ := no_array_calls_on_failure v w env passwd salt N r p dkLen hacq hrc2
  refine ⟨?_, hret, harr⟩
  rw [thrown_run, if_pos ⟨hacq, hrc2, hF, hT⟩, hsw, errnoMessage_einval]
  rfl

/-- C4, amended, at a concrete call: N = 3 with all buffers acquired. -/
theorem scryptN_bad_N_rejected_witness :
    Acquired 64 demoEnv 8 ∧ ThrowsCleanly demoEnv EINVAL ∧
    thrown (scryptN Variant.native 64 demoEnv [112] [115] 3 1 1 8).trace =
      [("java/lang/IllegalArgumentException", invalidNMessage Variant.native)] ∧
    (scryptN Variant.native 64 demoEnv [112] [115] 3 1 1 8).ret = none ∧
    ∀ e ∈ (scryptN Variant.native 64 demoEnv [112] [115] 3 1 1 8).trace,
      touchesArray e = false :=
  ⟨by decide, by decide,
    scryptN_bad_N_rejected Variant.native 64 demoEnv [112] [115] 3 1 1 8
      demoCore_rejects (Or.inl three_not_power_of_two) (by decide) (by decide)⟩

/-- C5. On every exit path, the password elements, the salt elements and the
output buffer are each released exactly once if they were acquired and not at
all if they were not (a null pointer is never released); the releases are
the last calls made before the function returns. -/
theorem scryptN_releases_exactly_once (v : Variant) (w : Nat) (env : Env)
    (passwd salt : List Byte) (N r p dkLen : Int) :
    (scryptN v w env passwd salt N r p dkLen).trace.countP (isRelease ArrayId.passwd) =
      (if env.getPasswdElements then 1 else 0) ∧
    (scryptN v w env passwd salt N r p dkLen).trace.countP (isRelease ArrayId.salt) =
      (if env.getSaltElements then 1 else 0) ∧
    (scryptN v w env passwd salt N r p dkLen).trace.countP isFree =
      (if env.mallocOk (sizeMul w sizeof_uint8_t (toSizeT w dkLen)) then 1 else 0) ∧
    ∃ before after : List Event,
      (scryptN v w env passwd salt N r p dkLen).trace = before ++ after ∧
      (∀ e ∈ before, isRelease ArrayId.passwd e = false ∧ isRelease ArrayId.salt e = false ∧
        isFree e = false) ∧
      (∀ e ∈ after, isRelease ArrayId.passwd e = true ∨ isRelease ArrayId.salt e = true ∨
        isFree e = true) := by
  rcases run_cases v w env passwd salt N r p dkLen with
    ⟨hacq, hrun⟩ | ⟨⟨hP, hS, hB⟩, -, hrun⟩ | ⟨⟨hP, hS, hB⟩, -, -, hrun⟩ |
    ⟨arr, ⟨hP, hS, hB⟩, -, -, hrun⟩
  · rw [hrun]
    simp only [earlyReleases]
    cases hP : env.getPasswdElements <;> cases hS : env.getSaltElements <;>
      cases hB : env.mallocOk (sizeMul w sizeof_uint8_t (toSizeT w dkLen)) <;>
      refine ⟨?_, ?_, ?_, acquireCalls w dkLen, _, rfl, ?_, ?_⟩ <;>
      simp [acquireCalls, isRelease, isFree, List.countP_cons]
  · rw [hrun]
    refine ⟨?_, ?_, ?_, _, releaseCalls ++ [Event.Free (keyBuffer w env passwd salt N r p dkLen)],
      List.append_assoc _ _ _, ?_, ?_⟩ <;>
      simp [hP, hS, hB, acquireCalls, releaseCalls, coreCall, throwCall, isRelease, isFree,
        List.countP_cons]
  · rw [hrun]
    refine ⟨?_, ?_, ?_, _, releaseCalls ++ [Event.Free (keyBuffer w env passwd salt N r p dkLen)],
      List.append_assoc _ _ _, ?_, ?_⟩ <;>
      simp [hP, hS, hB, acquireCalls, releaseCalls, coreCall, throwCall, isRelease, isFree,
        List.countP_cons]
  · rw [hrun]
    refine ⟨?_, ?_, ?_, _, releaseCalls ++ [Event.Free (keyBuffer w env passwd salt N r p dkLen)],
      List.append_assoc _ _ _, ?_, ?_⟩ <;>
      simp [hP, hS, hB, acquireCalls, releaseCalls, coreCall, throwCall, isRelease, isFree,
        List.countP_cons]

theorem ret_run_eq (v : Variant) (w : Nat) (env : Env) (passwd salt : List Byte)
    (N r p dkLen : Int) :
    (scryptN v w env passwd salt N r p dkLen).ret =
      if Acquired w env dkLen ∧ (coreResult w env passwd salt N r p dkLen).rc = 0 then
        (newByteArray env dkLen).map
          (fun arr => setByteArrayRegion arr 0 dkLen (keyBuffer w env passwd salt N r p dkLen))
      else none := by
  rcases run_cases v w env passwd salt N r p dkLen with
    ⟨hacq, hrun⟩ | ⟨hacq, hrc, hrun⟩ | ⟨hacq, hrc, hDK, hrun⟩ | ⟨arr, hacq, hrc, hDK, hrun⟩
  · rw [hrun, if_neg (fun h => hacq h.1)]
  · rw [hrun, if_neg (fun h => hrc h.2)]
  · rw [hrun, if_pos ⟨hacq, hrc⟩, hDK]; rfl
  · rw [hrun, if_pos ⟨hacq, hrc⟩, hDK]; rfl

/-- C8, counterexample. After a successful call the buffer is handed to
`free` still holding the derived key `1, 2, 3, 4` that was returned; it was
not overwritten with zeros. -/
theorem scryptN_frees_key_material :
    (scryptN Variant.native 64 demoEnv [112] [115] 16 1 1 4).ret = some [1, 2, 3, 4] ∧
    (scryptN Variant.native 64 demoEnv [112] [115] 16 1 1 4).trace.filter isFree =
      [Event.Free [1, 2, 3, 4]] ∧
    (scryptN Variant.windows 64 demoEnv [112] [115] 16 1 1 4).trace.filter isFree =
      [Event.Free [1, 2, 3, 4]] := by
  decide

/-- C8, amended. On every exit path on which `buf` was allocated it is passed
to `free` exactly once, with its contents untouched by the binding: the bytes
`crypto_scrypt` left in it when `crypto_scrypt` was called, and the bytes the
block had when `malloc` returned it otherwise. When `malloc` failed nothing is
freed. -/
theorem scryptN_frees_buffer_as_is (v : Variant) (w : Nat) (env : Env)
    (passwd salt : List Byte) (N r p dkLen : Int) :
    (scryptN v w env passwd salt N r p dkLen).trace.filter isFree =
      if env.mallocOk (sizeMul w sizeof_uint8_t (toSizeT w dkLen)) = true then
        (if env.getPasswdElements = true ∧ env.getSaltElements = true then
          [Event.Free (bufferAfter
            (env.crypto_scrypt passwd (passwd.length : Int) salt (salt.length : Int) N r p
              (toSizeT w dkLen)) (toSizeT w dkLen))]
        else
          [Event.Free
            ((List.range (sizeMul w sizeof_uint8_t (toSizeT w dkLen))).map env.heap)])
      else [] := by
  rcases run_cases v w env passwd salt N r p dkLen with
    ⟨hacq, hrun⟩ | ⟨⟨hP, hS, hB⟩, -, hrun⟩ | ⟨⟨hP, hS, hB⟩, -, -, hrun⟩ |
    ⟨arr, ⟨hP, hS, hB⟩, -, -, hrun⟩
  · rw [hrun]
    unfold Acquired at hacq
    simp only [earlyReleases]
    cases hP : env.getPasswdElements <;> cases hS : env.getSaltElements <;>
      cases hB : env.mallocOk (sizeMul w sizeof_uint8_t (toSizeT w dkLen)) <;>
      simp_all [acquireCalls, isFree, List.filter]
  · rw [hrun]
    simp [hP, hS, hB, acquireCalls, releaseCalls, coreCall, throwCall, isFree, List.filter, keyBuffer,
      coreResult, getArrayLength]
  · rw [hrun]
    simp [hP, hS, hB, acquireCalls, releaseCalls, coreCall, throwCall, isFree, List.filter, keyBuffer,
      coreResult, getArrayLength]
  · rw [hrun]
    simp [hP, hS, hB, acquireCalls, releaseCalls, coreCall, throwCall, isFree, List.filter, keyBuffer,
      coreResult, getArrayLength]

theorem toWindowsText_message (errno : Int) :
    (if errnoMessage_native errno = "N must be > 0 and a power of 2" then
        "N must be a power of 2 greater than 1"
      else errnoMessage_native errno) = errnoMessage_windows errno := by
  unfold errnoMessage_native errnoMessage_windows
  by_cases h1 : errno = EINVAL
  · subst h1; decide
  · by_cases h2 : errno = EFBIG
    · subst h2; decide
    · by_cases h3 : errno = ENOMEM
      · subst h3; decide
      · simp [h1, h2, h3]

theorem errnoMessage_variants (errno : Int) (h : errno ≠ EINVAL) :
    errnoMessage_windows errno = errnoMessage_native errno := by
  simp [errnoMessage_native, errnoMessage_windows, h]

/-- C9. For every input and every behaviour of the JNI environment, the
allocator and `crypto_scrypt`, the windows variant returns what the native
variant returns and makes the same calls with the same arguments in the same
order, up to the message text given to `ThrowNew`; both throw in exactly the
same cases; and unless the `errno` read by the `switch` is `EINVAL` the two
outcomes are identical. -/
theorem scryptN_variants_agree (w : Nat) (env : Env) (passwd salt : List Byte)
    (N r p dkLen : Int) :
    (scryptN_windows w env passwd salt N r p dkLen).ret =
      (scryptN_native w env passwd salt N r p dkLen).ret ∧
    (scryptN_windows w env passwd salt N r p dkLen).trace =
      (scryptN_native w env passwd salt N r p dkLen).trace.map toWindowsText ∧
    (thrown (scryptN_windows w env passwd salt N r p dkLen).trace).map Prod.fst =
      (thrown (scryptN_native w env passwd salt N r p dkLen).trace).map Prod.fst ∧
    (env.findClassErrno (env.crypto_scrypt passwd (passwd.length : Int) salt
        (salt.length : Int) N r p (toSizeT w dkLen)).errno ≠ EINVAL →
      scryptN_windows w env passwd salt N r p dkLen =
        scryptN_native w env passwd salt N r p dkLen) := by
  have hn : thrown (scryptN_native w env passwd salt N r p dkLen).trace = _ :=
    thrown_run Variant.native w env passwd salt N r p dkLen
  have hwn : thrown (scryptN_windows w env passwd salt N r p dkLen).trace = _ :=
    thrown_run Variant.windows w env passwd salt N r p dkLen
  have hthrown : (thrown (scryptN_windows w env passwd salt N r p dkLen).trace).map Prod.fst =
      (thrown (scryptN_native w env passwd salt N r p dkLen).trace).map Prod.fst := by
    rw [hn, hwn]
    split_ifs <;> rfl
  have hrest : (scryptN_windows w env passwd salt N r p dkLen).ret =
        (scryptN_native w env passwd salt N r p dkLen).ret ∧
      (scryptN_windows w env passwd salt N r p dkLen).trace =
        (scryptN_native w env passwd salt N r p dkLen).trace.map toWindowsText ∧
      (switchErrno w env passwd salt N r p dkLen ≠ EINVAL →
        scryptN_windows w env passwd salt N r p dkLen =
          scryptN_native w env passwd salt N r p dkLen) := by
    by_cases hacq : Acquired w env dkLen
    · by_cases hrc : (coreResult w env passwd salt N r p dkLen).rc = 0
      · cases hDK : newByteArray env dkLen with
        | none =>
          have h1 : scryptN_native w env passwd salt N r p dkLen = _ :=
            run_array_failed Variant.native w env passwd salt N r p dkLen hacq hrc hDK
          have h2 : scryptN_windows w env passwd salt N r p dkLen = _ :=
            run_array_failed Variant.windows w env passwd salt N r p dkLen hacq hrc hDK
          rw [h1, h2]
          simp [toWindowsText, acquireCalls, releaseCalls, coreCall]
        | some arr =>
          have h1 : scryptN_native w env passwd salt N r p dkLen = _ :=
            run_success Variant.native w env passwd salt N r p dkLen arr hacq hrc hDK
          have h2 : scryptN_windows w env passwd salt N r p dkLen = _ :=
            run_success Variant.windows w env passwd salt N r p dkLen arr hacq hrc hDK
          rw [h1, h2]
          simp [toWindowsText, acquireCalls, releaseCalls, coreCall]
      · have h1 : scryptN_native w env passwd salt N r p dkLen = _ :=
          run_failed_core Variant.native w env passwd salt N r p dkLen hacq hrc
        have h2 : scryptN_windows w env passwd salt N r p dkLen = _ :=
          run_failed_core Variant.windows w env passwd salt N r p dkLen hacq hrc
        rw [h1, h2]
        refine ⟨rfl, ?_, ?_⟩
        · simp [toWindowsText, acquireCalls, releaseCalls, coreCall, throwCall, errnoMessage,
            toWindowsText_message]
        · intro herr
          have hm := errnoMessage_variants _ herr
          simp only [throwCall, errnoMessage]
          rw [hm]
    · have h1 : scryptN_native w env passwd salt N r p dkLen = _ :=
        run_not_acquired Variant.native w env passwd salt N r p dkLen hacq
      have h2 : scryptN_windows w env passwd salt N r p dkLen = _ :=
        run_not_acquired Variant.windows w env passwd salt N r p dkLen hacq
      rw [h1, h2]
      refine ⟨rfl, ?_, fun _ => rfl⟩
      simp only [earlyReleases]
      cases env.getPasswdElements <;> cases env.getSaltElements <;>
        cases env.mallocOk (sizeMul w sizeof_uint8_t (toSizeT w dkLen)) <;>
        simp [toWindowsText, acquireCalls]
  exact ⟨hrest.1, hrest.2.1, hthrown, hrest.2.2⟩

/-- C10. For every `dkLen`, negative ones included, whenever `crypto_scrypt`
is called the buffer length it is given is the byte count that was asked of
`malloc` for `buf` (there is one `malloc` per call); and whenever an array is
returned, `0 ≤ dkLen`, the copy was `SetByteArrayRegion(DK, 0, dkLen, buf)`,
which reads bytes `[0, dkLen)` of a buffer of exactly `dkLen` allocated bytes
into an array of length `dkLen`. -/
theorem scryptN_buffer_lengths (v : Variant) (w : Nat) (env : Env)
    (passwd salt : List Byte) (N r p dkLen : Int)
    (hw : 32 ≤ w) (hjint : IsJInt dkLen) :
    (∀ (P : List Byte) (Plen : Int) (S : List Byte) (Slen : Int) (N1 r1 p1 : Int)
        (buflen : Nat),
      Event.CryptoScrypt P Plen S Slen N1 r1 p1 buflen ∈
          (scryptN v w env passwd salt N r p dkLen).trace →
        (scryptN v w env passwd salt N r p dkLen).trace.filterMap mallocSize = [buflen] ∧
        buflen = toSizeT w dkLen) ∧
    (∀ arr : List Byte, (scryptN v w env passwd salt N r p dkLen).ret = some arr →
      0 ≤ dkLen ∧
      (scryptN v w env passwd salt N r p dkLen).trace.filterMap mallocSize = [dkLen.toNat] ∧
      (arr.length : Int) = dkLen ∧
      ∃ buf : List Byte,
        (scryptN v w env passwd salt N r p dkLen).trace.filter touchesArray =
          [Event.NewByteArray dkLen, Event.SetByteArrayRegion 0 dkLen buf] ∧
        (buf.length : Int) = dkLen ∧ arr = buf.take dkLen.toNat) := by
  have hsize := malloc_size_eq w dkLen
  constructor
  · intro P Plen S Slen N1 r1 p1 buflen hmem
    rcases run_cases v w env passwd salt N r p dkLen with
      ⟨hacq, hrun⟩ | ⟨hacq, hrc, hrun⟩ | ⟨hacq, hrc, -, hrun⟩ | ⟨arr, hacq, hrc, -, hrun⟩
    · rw [hrun] at hmem
      exfalso
      simp only [earlyReleases] at hmem
      cases env.getPasswdElements <;> cases env.getSaltElements <;>
        cases env.mallocOk (sizeMul w sizeof_uint8_t (toSizeT w dkLen)) <;>
        simp [acquireCalls] at hmem
    · rw [hrun] at hmem ⊢
      simp [acquireCalls, releaseCalls, coreCall, throwCall] at hmem
      simp [acquireCalls, releaseCalls, coreCall, throwCall, mallocSize, hsize, hmem]
    · rw [hrun] at hmem ⊢
      simp [acquireCalls, releaseCalls, coreCall, throwCall] at hmem
      simp [acquireCalls, releaseCalls, coreCall, throwCall, mallocSize, hsize, hmem]
    · rw [hrun] at hmem ⊢
      simp [acquireCalls, releaseCalls, coreCall, throwCall] at hmem
      simp [acquireCalls, releaseCalls, coreCall, throwCall, mallocSize, hsize, hmem]
  · intro arr hret
    obtain ⟨hacq, hrc, h0, hok, harr⟩ := ret_run v w env passwd salt N r p dkLen arr hret
    have hDK : newByteArray env dkLen = some (List.replicate dkLen.toNat 0) := by
      unfold newByteArray
      rw [if_neg (by omega), if_pos hok]
    have hrun := run_success v w env passwd salt N r p dkLen _ hacq hrc hDK
    have hsz := toSizeT_of_jint w dkLen hw h0 hjint
    have hlen := keyBuffer_length w env passwd salt N r p dkLen
    have hcopy := copy_whole dkLen.toNat (keyBuffer w env passwd salt N r p dkLen)
      (by rw [hlen, hsz])
    rw [Int.toNat_of_nonneg h0] at hcopy
    refine ⟨h0, ?_, ?_, keyBuffer w env passwd salt N r p dkLen, ?_, ?_, ?_⟩
    · rw [hrun]
      simp [acquireCalls, releaseCalls, coreCall, throwCall, mallocSize, hsize]
      exact hsz
    · rw [harr, hcopy, hlen, hsz, Int.toNat_of_nonneg h0]
    · rw [hrun]
      simp [acquireCalls, releaseCalls, coreCall, throwCall, touchesArray, List.filter]
    · rw [hlen, hsz, Int.toNat_of_nonneg h0]
    · rw [harr, hcopy]
      rw [List.take_of_length_le (by rw [hlen, hsz])]

/-- C10 at concrete calls on a 64-bit platform: `dkLen = 4` succeeds with a
4-byte buffer, and for `dkLen = -1` the size asked of `malloc` is
`2 ^ 64 - 1`. -/
theorem scryptN_buffer_lengths_witness :
    (scryptN Variant.native 64 demoEnv [112] [115] 16 1 1 4).trace.filterMap mallocSize = [4] ∧
    (scryptN Variant.native 64 demoEnv [112] [115] 16 1 1 (-1)).trace.filterMap mallocSize =
      [2 ^ 64 - 1] ∧
    ((∀ (P : List Byte) (Plen : Int) (S : List Byte) (Slen : Int) (N1 r1 p1 : Int)
        (buflen : Nat),
      Event.CryptoScrypt P Plen S Slen N1 r1 p1 buflen ∈
          (scryptN Variant.native 64 demoEnv [112] [115] 16 1 1 4).trace →
        (scryptN Variant.native 64 demoEnv [112] [115] 16 1 1 4).trace.filterMap mallocSize =
          [buflen] ∧
        buflen = toSizeT 64 4) ∧
    (∀ arr : List Byte,
      (scryptN Variant.native 64 demoEnv [112] [115] 16 1 1 4).ret = some arr →
      (0 : Int) ≤ 4 ∧
      (scryptN Variant.native 64 demoEnv [112] [115] 16 1 1 4).trace.filterMap mallocSize =
        [(4 : Int).toNat] ∧
      (arr.length : Int) = 4 ∧
      ∃ buf : List Byte,
        (scryptN Variant.native 64 demoEnv [112] [115] 16 1 1 4).trace.filter touchesArray =
          [Event.NewByteArray 4, Event.SetByteArrayRegion 0 4 buf] ∧
        (buf.length : Int) = 4 ∧ arr = buf.take (4 : Int).toNat)) :=
  ⟨by decide, by decide,
    scryptN_buffer_lengths Variant.native 64 demoEnv [112] [115] 16 1 1 4
      (by decide) (by decide)⟩

end SCrypt
